import Mathlib

/-!
Verification of the WorldCup game backend against its specification.

The development shallowly embeds the two Go services:
the inventory cluster (decks service: replicated card store, bully
leader election, trade coordinator) and the match fabric (peer-to-peer
matchmaking).  Go maps become total functions into `Option`, stateful
handlers become explicit state-passing functions, and outbound HTTP
effects (probes, replication fan-out, callbacks) are modelled as
parameters or elided where they do not touch local state.
-/

namespace WorldCup

namespace Decks

/-- Card of the decks service (decks/card.go): integer id and a name. -/
structure Card where
  id : Int
  name : String
deriving DecidableEq, Repr

/-- Deck (decks/deck.go): the Go map `cards map[int]Card`, modelled as a
total function from card id to optional card. -/
abbrev Deck := Int → Option Card

def Deck.empty : Deck := fun _ => none

/-- Go `Deck.Add`: `deck.cards[card.ID] = card` (insert, overwriting by id). -/
def Deck.add (d : Deck) (c : Card) : Deck :=
  fun i => if i = c.id then some c else d i

/-- Go `Deck.Remove`: `delete(deck.cards, card_id)` (no-op when absent). -/
def Deck.remove (d : Deck) (cid : Int) : Deck :=
  fun i => if i = cid then none else d i

/-- Well-formedness of the Go card map: the key equals the stored card id.
Every reachable deck satisfies this because `Add` keys by `card.ID`. -/
def Deck.WF (d : Deck) : Prop := ∀ i c, d i = some c → c.id = i

/-- The list `l` is a possible output of the Go `Deck.List()`: an unordered
snapshot of the card map, at most one entry per id. -/
def Deck.enumerates (d : Deck) (l : List Card) : Prop :=
  (∀ c : Card, c ∈ l ↔ d c.id = some c) ∧ l.Pairwise (fun a b => a.id ≠ b.id)

/-- DeckStore (decks/deck.go): the global deck plus per-user decks.  The
empty user name addresses the global deck (`resolveDeck`), and lazily
created per-user decks are observationally a total map defaulting to the
empty deck. -/
abbrev DeckStore := String → Deck

def DeckStore.WF (ds : DeckStore) : Prop := ∀ u, Deck.WF (ds u)

/-- Go `DeckStore.Add`: resolve the deck for the user and insert. -/
def DeckStore.Add (ds : DeckStore) (user : String) (c : Card) : DeckStore :=
  fun u => if u = user then Deck.add (ds user) c else ds u

/-- Go `DeckStore.Remove`: resolve the deck for the user and delete. -/
def DeckStore.Remove (ds : DeckStore) (user : String) (cid : Int) : DeckStore :=
  fun u => if u = user then Deck.remove (ds user) cid else ds u

/-- Go `findCardInList` (trade accept helper): first card in the list with
the wanted id. -/
def findCardInList : List Card → Int → Option Card
  | [], _ => none
  | c :: rest, cid => if c.id = cid then some c else findCardInList rest cid

/-- Semantic lookup used by the embedding in place of
`findCardInList(deck.List(user), id)`; the bridge lemma
`findCardInList_enumerates` shows the two agree on every possible
`List()` output. -/
def DeckStore.find (ds : DeckStore) (user : String) (cid : Int) : Option Card :=
  ds user cid

theorem findCardInList_of_not_mem (l : List Card) (cid : Int)
    (h : ∀ c ∈ l, c.id ≠ cid) : findCardInList l cid = none := by
  induction l with
  | nil => rfl
  | cons a rest ih =>
    have ha : a.id ≠ cid := h a (by simp)
    simp only [findCardInList, if_neg ha]
    exact ih (fun c hc => h c (by simp [hc]))

theorem findCardInList_of_mem (l : List Card) (c : Card) (cid : Int)
    (hmem : c ∈ l) (hid : c.id = cid)
    (huniq : ∀ c2 ∈ l, c2.id = cid → c2 = c) :
    findCardInList l cid = some c := by
  induction l with
  | nil => simp at hmem
  | cons a rest ih =>
    by_cases ha : a.id = cid
    · have hac : a = c := huniq a (by simp) ha
      subst hac
      simp [findCardInList, ha]
    · have hcr : c ∈ rest := by
        rcases List.mem_cons.mp hmem with rfl | h
        · exact absurd hid ha
        · exact h
      simp only [findCardInList, if_neg ha]
      exact ih hcr (fun c2 hc2 => huniq c2 (by simp [hc2]))

theorem findCardInList_enumerates (d : Deck) (hwf : Deck.WF d)
    (l : List Card) (henum : Deck.enumerates d l) (cid : Int) :
    findCardInList l cid = d cid := by
  obtain ⟨hmem, _⟩ := henum
  cases hd : d cid with
  | none =>
    refine findCardInList_of_not_mem l cid ?_
    intro c hc hcontra
    have := (hmem c).mp hc
    rw [hcontra, hd] at this
    exact Option.noConfusion this
  | some c =>
    have hcid : c.id = cid := hwf cid c hd
    refine findCardInList_of_mem l c cid ((hmem c).mpr (by rw [hcid]; exact hd)) hcid ?_
    intro c2 hc2 hid2
    have := (hmem c2).mp hc2
    rw [hid2, hd] at this
    exact (Option.some.inj this).symm

/-- TradeRequest (node.go of the trading variant): a two-party swap
proposal between user A and user B. -/
structure TradeRequest where
  userA : String
  userB : String
  aCardID : Int
  bCardID : Int
deriving DecidableEq, Repr

/-- The per-node state touched by the claims: the deck store, the pending
trades map (Go `map[int]*TradeRequest`) and the trade id counter.  Leader
view, peer table and HTTP client are orthogonal to the claims over this
state and are parameters of the functions that need them. -/
structure Node where
  decks : DeckStore
  trades : Int → Option TradeRequest
  nextTradeID : Int

/-- Outcome of `handleTrade` after a successful JSON decode. -/
inductive TradeResult where
  | missingFields
  | pending (tradeID : Int)
deriving DecidableEq, Repr

/-- Go `handleTrade` (leader path, after JSON decode): validate the field
presence, allocate the next trade id, store the proposal. -/
def handleTrade (node : Node) (trade : TradeRequest) : Node × TradeResult :=
  if trade.userA = "" ∨ trade.userB = "" ∨ trade.aCardID = 0 ∨ trade.bCardID = 0 then
    (node, TradeResult.missingFields)
  else
    let id := node.nextTradeID + 1
    ({ node with
        nextTradeID := id
        trades := fun i => if i = id then some trade else node.trades i },
     TradeResult.pending id)

/-- Outcome of `handleTradeAccept` after JSON and path decode. -/
inductive AcceptResult where
  | notFound
  | forbidden
  | cardsNotFound
  | ok (userAReceived userBReceived : Card)
deriving DecidableEq, Repr

/-- Go `handleTradeAccept` (leader path, after decode): look up the
proposal, reject a non-counterparty acceptor, remove the proposal, check
both cards, then perform the four-mutation swap in source order.  Each
replicate fan-out is fire-and-forget and does not touch local state. -/
def handleTradeAccept (node : Node) (id : Int) (payloadUser : String) :
    Node × AcceptResult :=
  match node.trades id with
  | none => (node, AcceptResult.notFound)
  | some tr =>
    if payloadUser ≠ tr.userB then (node, AcceptResult.forbidden)
    else
      let node1 : Node :=
        { node with trades := fun i => if i = id then none else node.trades i }
      match DeckStore.find node1.decks tr.userA tr.aCardID,
            DeckStore.find node1.decks tr.userB tr.bCardID with
      | some aCard, some bCard =>
        let d1 := DeckStore.Remove node1.decks tr.userA tr.aCardID
        let d2 := DeckStore.Remove d1 tr.userB tr.bCardID
        let d3 := DeckStore.Add d2 tr.userA bCard
        let d4 := DeckStore.Add d3 tr.userB aCard
        ({ node1 with decks := d4 }, AcceptResult.ok bCard aCard)
      | _, _ => (node1, AcceptResult.cardsNotFound)

/-- Fold of `handleTrade` over a sequence of proposals, collecting the
issued trade ids in order. -/
def processTrades : Node → List TradeRequest → Node × List Int
  | node, [] => (node, [])
  | node, t :: ts =>
    match handleTrade node t with
    | (node1, TradeResult.pending id) =>
      let rest := processTrades node1 ts
      (rest.1, id :: rest.2)
    | (node1, _) => processTrades node1 ts

/-- Model of the Go `strings.TrimSpace`: drop whitespace characters from
both ends of the string. -/
def trimSpace (s : String) : String :=
  String.mk (((s.data.dropWhile Char.isWhitespace).reverse.dropWhile
    Char.isWhitespace).reverse)

/-- Go `getUserFromRequest`: path `/users/:user/...` wins, then the
`user` query parameter, then the `X-User` header, else the global deck.
The path is given as its slash-split segments, the query parameter as the
result of `Query().Get("user")` (empty when absent), the header likewise. -/
def getUserFromRequest (parts : List String) (queryUser headerXUser : String) :
    String :=
  if 2 ≤ parts.length ∧ parts.headI = "users" then trimSpace (parts.getD 1 "")
  else if queryUser ≠ "" then trimSpace queryUser
  else trimSpace headerXUser

/-- Go `handlePostCard` (leader path, after decode): resolve target user
from the request, insert the card, fan out replication (no local effect). -/
def handlePostCard (node : Node) (parts : List String)
    (queryUser headerXUser : String) (c : Card) : Node :=
  { node with
      decks := DeckStore.Add node.decks (getUserFromRequest parts queryUser headerXUser) c }

/-- Go `handleDeleteCard` (leader path, after path parse): resolve target
user from the request, delete the card id, fan out replication. -/
def handleDeleteCard (node : Node) (parts : List String)
    (queryUser headerXUser : String) (id : Int) : Node :=
  { node with
      decks := DeckStore.Remove node.decks (getUserFromRequest parts queryUser headerXUser) id }

/-- Liveness test of `electLeader`: self is always available, other ids
answer according to the outcome of the `GET /status` probe. -/
def isAvailable (selfID : Int) (live : Int → Bool) (id : Int) : Bool :=
  if id = selfID then true else live id

/-- Go `electLeader`: consider self, scan the peer table in some order,
keep the highest available id, fall back to self when the running highest
is still the `-1` sentinel.  The peer map iteration order is the order of
the `peers` list; the liveness outcome of each probe is the `live`
oracle. -/
def electLeader (selfID : Int) (selfAddr : String)
    (peers : List (Int × String)) (live : Int → Bool) : Int × String :=
  let init : Int × String :=
    if isAvailable selfID live selfID then (selfID, selfAddr) else (-1, "")
  let folded := peers.foldl
    (fun best p =>
      if isAvailable selfID live p.1 = false then best
      else if p.1 > best.1 then p else best)
    init
  if folded.1 = -1 then (selfID, selfAddr) else folded

/-- Snapshot payload (`handleSnapshot`): global deck listing, per-user
listings, pending trades and the next trade id, each map rendered as an
unordered enumeration. -/
structure Snapshot where
  global : List Card
  users : List (String × List Card)
  trades : List (Int × TradeRequest)
  nextTradeID : Int

/-- The snapshot `s` is a possible output of `handleSnapshot` on `node`:
each listing enumerates the corresponding map, user names are the named
(non-global) decks, users absent from the payload own no cards, and the
trade entries enumerate the pending-trades map. -/
def snapshotOf (node : Node) (s : Snapshot) : Prop :=
  Deck.enumerates (node.decks "") s.global
  ∧ (∀ p ∈ s.users, p.1 ≠ "" ∧ Deck.enumerates (node.decks p.1) p.2)
  ∧ s.users.Pairwise (fun p q => p.1 ≠ q.1)
  ∧ (∀ u : String, u ≠ "" → (∀ p ∈ s.users, p.1 ≠ u) → ∀ i, node.decks u i = none)
  ∧ (∀ p ∈ s.trades, node.trades p.1 = some p.2)
  ∧ (∀ i t, node.trades i = some t → (i, t) ∈ s.trades)
  ∧ s.trades.Pairwise (fun p q => p.1 ≠ q.1)
  ∧ s.nextTradeID = node.nextTradeID

/-- Go `SyncFromLeader`, ingest half: build a fresh DeckStore by replaying
`Add` over the snapshot listings, restore the trades map and the next
trade id, and swap the state in wholesale. -/
def SyncFromLeader (s : Snapshot) : Node :=
  let ds0 : DeckStore := fun _ => Deck.empty
  let ds1 := s.global.foldl (fun ds c => DeckStore.Add ds "" c) ds0
  let ds2 := s.users.foldl
    (fun ds p => p.2.foldl (fun acc c => DeckStore.Add acc p.1 c) ds) ds1
  let tr := s.trades.foldl
    (fun m p => fun i => if i = p.1 then some p.2 else m i)
    (fun _ => none)
  { decks := ds2, trades := tr, nextTradeID := s.nextTradeID }

end Decks

namespace MatchSvc

/-- Card of the match service (match/models.go): string id, name and a
power score. -/
structure Card where
  id : String
  name : String
  power : Int
deriving DecidableEq, Repr

/-- PlayerInfo (match/models.go): player id, the server address where the
player is connected, and the committed hand. -/
structure PlayerInfo where
  playerID : String
  server : String
  cards : List Card
deriving DecidableEq, Repr

/-- Match (match/models.go): id, host, guest and winner identifier. -/
structure Match where
  id : String
  host : PlayerInfo
  guest : PlayerInfo
  winner : String
deriving DecidableEq, Repr

/-- WaitingPlayer (match/models.go); `Challenger` is an alias of it. -/
structure WaitingPlayer where
  playerID : String
  cards : List Card
deriving DecidableEq, Repr

/-- Go `scoreOf`: sum of the card powers. -/
def scoreOf (cards : List Card) : Int :=
  cards.foldl (fun s c => s + c.power) 0

/-- Go `createMatch`: pair host against guest, record the local server
address in both PlayerInfo values, and resolve the winner by comparing
power sums.  The random match id (`newCardID`, crypto RNG) is passed in
as a parameter. -/
def createMatch (host guest : WaitingPlayer) (localAddr : String)
    (matchID : String) : Match :=
  let hostScore := scoreOf host.cards
  let guestScore := scoreOf guest.cards
  { id := matchID
    host := { playerID := host.playerID, server := localAddr, cards := host.cards }
    guest := { playerID := guest.playerID, server := localAddr, cards := guest.cards }
    winner :=
      if hostScore > guestScore then host.playerID
      else if guestScore > hostScore then guest.playerID
      else "draw" }

/-- The match-fabric server state touched by the claims: listen address,
FIFO waiting queue and peer list.  Push channels are I/O and out of the
embedded state. -/
structure Server where
  address : String
  waiting : List WaitingPlayer
  peers : List String
deriving DecidableEq, Repr

/-- Go `popWaiter`: dequeue the queue head under the server mutex. -/
def popWaiter (server : Server) : Option WaitingPlayer × Server :=
  match server.waiting with
  | [] => (none, server)
  | w :: rest => (some w, { server with waiting := rest })

/-- Decoded body of a find-waiter request. -/
structure FindWaiterRequest where
  playerID : String
  cards : List Card
  callback : String
  server : String
deriving DecidableEq, Repr

/-- HTTP outcome of the find-waiter handler. -/
inductive FindWaiterResult where
  | noContent
  | ok (m : Match)
deriving DecidableEq, Repr

/-- Go `Server.FindWaiter` (after JSON decode): pop the queue head; when
empty reply 204, otherwise build the match pairing the popped waiter as
host against the remote challenger as guest and reply 200 with it.  The
asynchronous waiter notification and callback POST are I/O without local
state effect. -/
def FindWaiter (server : Server) (data : FindWaiterRequest)
    (matchID : String) : Server × FindWaiterResult :=
  match popWaiter server with
  | (none, s) => (s, FindWaiterResult.noContent)
  | (some waiter, s) =>
    let challenger : WaitingPlayer := { playerID := data.playerID, cards := data.cards }
    let m := createMatch waiter challenger s.address matchID
    (s, FindWaiterResult.ok m)

/-- Outcome of one peer interaction during `/play` peer polling, as seen
by the loop body: a transport error, or an HTTP response with its status
and the result of decoding its body as a Match. -/
inductive PeerResponse where
  | transportError
  | httpResponse (status : Int) (body : Option Match)
deriving DecidableEq, Repr

/-- What the loop body of `playMatch` does with one peer outcome. -/
inductive StepOutcome where
  | returnMatch (m : Match)
  | continueLogged
  | continueNoLog
deriving DecidableEq, Repr

/-- Loop body of the peer-polling section of Go `playMatch`
(match/handlers.go): transport errors are logged and skipped, 204 means
no waiter and is skipped, any other response whose body decodes as a
Match is returned, and a body that fails to decode is skipped without a
log line. -/
def pollStep : PeerResponse → StepOutcome
  | PeerResponse.transportError => StepOutcome.continueLogged
  | PeerResponse.httpResponse status body =>
    if status = 204 then StepOutcome.continueNoLog
    else
      match body with
      | some m => StepOutcome.returnMatch m
      | none => StepOutcome.continueNoLog

/-- The whole polling loop: peers are tried in order and the first
returned match stops the iteration. -/
def pollPeers : List PeerResponse → Option Match
  | [] => none
  | r :: rest =>
    match pollStep r with
    | StepOutcome.returnMatch m => some m
    | _ => pollPeers rest

end MatchSvc

/-! Helper lemmas about the decks embedding. -/

namespace Decks

theorem processTrades_spec (ts : List TradeRequest) :
    ∀ node : Node,
      node.nextTradeID ≤ (processTrades node ts).1.nextTradeID
      ∧ (∀ id2 ∈ (processTrades node ts).2,
          node.nextTradeID < id2 ∧ id2 ≤ (processTrades node ts).1.nextTradeID)
      ∧ (processTrades node ts).2.Pairwise (· < ·) := by
  induction ts with
  | nil => intro node; simp [processTrades]
  | cons t ts ih =>
    intro node
    by_cases hv : t.userA = "" ∨ t.userB = "" ∨ t.aCardID = 0 ∨ t.bCardID = 0
    · have hstep : handleTrade node t = (node, TradeResult.missingFields) := by
        simp [handleTrade, hv]
      simp only [processTrades, hstep]
      exact ih node
    · have hstep : handleTrade node t
        = ({ node with
              nextTradeID := node.nextTradeID + 1
              trades := fun i =>
                if i = node.nextTradeID + 1 then some t else node.trades i },
           TradeResult.pending (node.nextTradeID + 1)) := by
        simp [handleTrade, hv]
      simp only [processTrades, hstep]
      obtain ⟨h1, h2, h3⟩ := ih
        { node with
            nextTradeID := node.nextTradeID + 1
            trades := fun i =>
              if i = node.nextTradeID + 1 then some t else node.trades i }
      refine ⟨by simp at h1 ⊢; omega, ?_, ?_⟩
      · intro id2 hid2
        rcases List.mem_cons.mp hid2 with rfl | hmem
        · simp at h1 ⊢
          omega
        · have := h2 id2 hmem
          simp at this ⊢
          omega
      · refine List.Pairwise.cons ?_ h3
        intro id2 hid2
        have := h2 id2 hid2
        simp at this
        omega

theorem addFold_other (l : List Card) (ds : DeckStore) (user u : String)
    (h : u ≠ user) (i : Int) :
    (l.foldl (fun acc c => DeckStore.Add acc user c) ds) u i = ds u i := by
  induction l generalizing ds with
  | nil => rfl
  | cons a rest ih =>
    simp only [List.foldl_cons]
    rw [ih]
    simp [DeckStore.Add, h]

theorem addFold_self_not_mem (l : List Card) (ds : DeckStore) (user : String)
    (i : Int) (h : ∀ c ∈ l, c.id ≠ i) :
    (l.foldl (fun acc c => DeckStore.Add acc user c) ds) user i = ds user i := by
  induction l generalizing ds with
  | nil => rfl
  | cons a rest ih =>
    simp only [List.foldl_cons]
    rw [ih _ (fun c hc => h c (by simp [hc]))]
    have ha : i ≠ a.id := fun hh => h a (by simp) hh.symm
    simp [DeckStore.Add, Deck.add, ha]

theorem addFold_self_mem (l : List Card) (ds : DeckStore) (user : String)
    (c : Card) (hnd : l.Pairwise (fun x y => x.id ≠ y.id)) (hc : c ∈ l) :
    (l.foldl (fun acc c2 => DeckStore.Add acc user c2) ds) user c.id = some c := by
  induction l generalizing ds with
  | nil => simp at hc
  | cons a rest ih =>
    simp only [List.foldl_cons]
    rcases List.mem_cons.mp hc with rfl | hcr
    · rw [addFold_self_not_mem rest _ user c.id
        (fun x hx hh => (List.pairwise_cons.mp hnd).1 x hx hh.symm)]
      simp [DeckStore.Add, Deck.add]
    · exact ih _ (List.Pairwise.of_cons hnd) hcr

theorem addFold_eval (l : List Card) (ds : DeckStore) (user : String)
    (d : Deck) (hwf : Deck.WF d) (henum : Deck.enumerates d l)
    (hstart : ∀ j, ds user j = none) (i : Int) :
    (l.foldl (fun acc c => DeckStore.Add acc user c) ds) user i = d i := by
  obtain ⟨hmem, hnd⟩ := henum
  cases hd : d i with
  | some c =>
    have hcid : c.id = i := hwf i c hd
    have hcl : c ∈ l := (hmem c).mpr (by rw [hcid]; exact hd)
    rw [← hcid]
    exact addFold_self_mem l ds user c hnd hcl
  | none =>
    rw [addFold_self_not_mem l ds user i ?_]
    · exact hstart i
    · intro c hcl hci
      have := (hmem c).mp hcl
      rw [hci, hd] at this
      exact Option.noConfusion this

theorem usersFold_other (list : List (String × List Card)) (start : DeckStore)
    (u : String) (h : ∀ p ∈ list, p.1 ≠ u) (i : Int) :
    (list.foldl
        (fun ds p => p.2.foldl (fun acc c => DeckStore.Add acc p.1 c) ds)
        start) u i
      = start u i := by
  induction list generalizing start with
  | nil => rfl
  | cons p rest ih =>
    simp only [List.foldl_cons]
    rw [ih _ (fun q hq => h q (by simp [hq]))]
    exact addFold_other p.2 start p.1 u (fun hh => h p (by simp) hh.symm) i

theorem usersFold_mem (list : List (String × List Card)) (start : DeckStore)
    (u : String) (l : List Card) (d : Deck)
    (hmem : (u, l) ∈ list) (hnd : list.Pairwise (fun p q => p.1 ≠ q.1))
    (hwf : Deck.WF d) (henum : Deck.enumerates d l)
    (hstart : ∀ j, start u j = none) (i : Int) :
    (list.foldl
        (fun ds p => p.2.foldl (fun acc c => DeckStore.Add acc p.1 c) ds)
        start) u i
      = d i := by
  induction list generalizing start with
  | nil => simp at hmem
  | cons p rest ih =>
    simp only [List.foldl_cons]
    rcases List.mem_cons.mp hmem with heq | hmr
    · have hp1 : p = (u, l) := heq.symm
      subst hp1
      rw [usersFold_other rest _ u
        (fun q hq => Ne.symm ((List.pairwise_cons.mp hnd).1 q hq))]
      exact addFold_eval l start u d hwf henum hstart i
    · have hp : p.1 ≠ u := (List.pairwise_cons.mp hnd).1 (u, l) hmr
      refine ih _ hmr (List.Pairwise.of_cons hnd) ?_
      intro j
      rw [addFold_other p.2 start p.1 u (fun hh => hp hh.symm) j]
      exact hstart j

theorem tradesFold_absent (list : List (Int × TradeRequest))
    (m0 : Int → Option TradeRequest) (i : Int)
    (h : ∀ p ∈ list, p.1 ≠ i) :
    (list.foldl (fun m p => fun j => if j = p.1 then some p.2 else m j) m0) i
      = m0 i := by
  induction list generalizing m0 with
  | nil => rfl
  | cons p rest ih =>
    simp only [List.foldl_cons]
    rw [ih _ (fun q hq => h q (by simp [hq]))]
    have hp : i ≠ p.1 := fun hh => h p (by simp) hh.symm
    simp [hp]

theorem tradesFold_mem (list : List (Int × TradeRequest))
    (m0 : Int → Option TradeRequest) (i : Int) (t : TradeRequest)
    (hnd : list.Pairwise (fun p q => p.1 ≠ q.1)) (hmem : (i, t) ∈ list) :
    (list.foldl (fun m p => fun j => if j = p.1 then some p.2 else m j) m0) i
      = some t := by
  induction list generalizing m0 with
  | nil => simp at hmem
  | cons p rest ih =>
    simp only [List.foldl_cons]
    rcases List.mem_cons.mp hmem with heq | hmr
    · have hp : p = (i, t) := heq.symm
      subst hp
      rw [tradesFold_absent rest _ i
        (fun q hq => Ne.symm ((List.pairwise_cons.mp hnd).1 q hq))]
      simp
    · exact ih _ (List.Pairwise.of_cons hnd) hmr

theorem WF_empty : Deck.WF Deck.empty := fun _ _ h => Option.noConfusion h

theorem WF_add_empty (c0 : Card) : Deck.WF (Deck.add Deck.empty c0) := by
  intro i c h
  simp only [Deck.add, Deck.empty] at h
  by_cases hi : i = c0.id
  · rw [if_pos hi] at h
    injection h with h2
    rw [← h2]
    exact hi.symm
  · rw [if_neg hi] at h
    exact Option.noConfusion h

theorem enumerates_single (c0 : Card) :
    Deck.enumerates (Deck.add Deck.empty c0) [c0] := by
  constructor
  · intro c
    simp only [List.mem_singleton, Deck.add, Deck.empty]
    constructor
    · intro hc
      subst hc
      simp
    · intro hc
      by_cases hi : c.id = c0.id
      · rw [if_pos hi] at hc
        exact (Option.some.inj hc).symm
      · rw [if_neg hi] at hc
        exact Option.noConfusion hc
  · simp

theorem electFold_spec (selfID : Int) (live : Int → Bool)
    (peers : List (Int × String)) :
    ∀ best : Int × String,
      best.1 ≤ (peers.foldl
          (fun best p =>
            if isAvailable selfID live p.1 = false then best
            else if p.1 > best.1 then p else best) best).1
      ∧ ((peers.foldl
            (fun best p =>
              if isAvailable selfID live p.1 = false then best
              else if p.1 > best.1 then p else best) best) = best
          ∨ ((peers.foldl
                (fun best p =>
                  if isAvailable selfID live p.1 = false then best
                  else if p.1 > best.1 then p else best) best) ∈ peers
             ∧ isAvailable selfID live
                 (peers.foldl
                   (fun best p =>
                     if isAvailable selfID live p.1 = false then best
                     else if p.1 > best.1 then p else best) best).1 = true))
      ∧ (∀ p ∈ peers, isAvailable selfID live p.1 = true →
          p.1 ≤ (peers.foldl
            (fun best p =>
              if isAvailable selfID live p.1 = false then best
              else if p.1 > best.1 then p else best) best).1) := by
  induction peers with
  | nil =>
    intro best
    exact ⟨le_refl _, Or.inl rfl, by simp⟩
  | cons p rest ih =>
    intro best
    simp only [List.foldl_cons]
    by_cases hav : isAvailable selfID live p.1 = false
    · rw [if_pos hav]
      obtain ⟨ih1, ih2, ih3⟩ := ih best
      refine ⟨ih1, ?_, ?_⟩
      · rcases ih2 with heq | ⟨hmem, hv⟩
        · exact Or.inl heq
        · exact Or.inr ⟨by simp [hmem], hv⟩
      · intro q hq hqv
        rcases List.mem_cons.mp hq with rfl | hqr
        · rw [hqv] at hav
          exact absurd hav (by simp)
        · exact ih3 q hqr hqv
    · rw [if_neg hav]
      have hav2 : isAvailable selfID live p.1 = true := by
        cases hbool : isAvailable selfID live p.1 with
        | false => exact absurd hbool hav
        | true => rfl
      by_cases hgt : p.1 > best.1
      · rw [if_pos hgt]
        obtain ⟨ih1, ih2, ih3⟩ := ih p
        refine ⟨le_trans (le_of_lt hgt) ih1, ?_, ?_⟩
        · rcases ih2 with heq | ⟨hmem, hv⟩
          · exact Or.inr ⟨by simp [heq], by rw [heq]; exact hav2⟩
          · exact Or.inr ⟨by simp [hmem], hv⟩
        · intro q hq hqv
          rcases List.mem_cons.mp hq with rfl | hqr
          · exact ih1
          · exact ih3 q hqr hqv
      · rw [if_neg hgt]
        obtain ⟨ih1, ih2, ih3⟩ := ih best
        refine ⟨ih1, ?_, ?_⟩
        · rcases ih2 with heq | ⟨hmem, hv⟩
          · exact Or.inl heq
          · exact Or.inr ⟨by simp [hmem], hv⟩
        · intro q hq hqv
          rcases List.mem_cons.mp hq with rfl | hqr
          · exact le_trans (not_lt.mp hgt) ih1
          · exact ih3 q hqr hqv

/-- Example state used by the snapshot round-trip witness: one global
card, one card owned by alice, one pending trade and counter 9. -/
def snapshotNode : Node :=
  { decks := fun u =>
      if u = "alice" then Deck.add Deck.empty { id := 2, name := "King" }
      else if u = "" then Deck.add Deck.empty { id := 1, name := "Ace" }
      else Deck.empty
    trades := fun i =>
      if i = 7 then some { userA := "a", userB := "b", aCardID := 1, bCardID := 2 }
      else none
    nextTradeID := 9 }

/-- Snapshot of snapshotNode, used by the round-trip witness. -/
def snapshotS : Snapshot :=
  { global := [{ id := 1, name := "Ace" }]
    users := [("alice", [{ id := 2, name := "King" }])]
    trades := [(7, { userA := "a", userB := "b", aCardID := 1, bCardID := 2 })]
    nextTradeID := 9 }

/-- Example state shared by the trade-coordinator claims: user john owns
card 1, user doe owns card 2, and trade 1 offers card 1 for card 2. -/
def tradeNode : Node :=
  { decks := fun u =>
      if u = "john" then Deck.add Deck.empty { id := 1, name := "A" }
      else if u = "doe" then Deck.add Deck.empty { id := 2, name := "B" }
      else Deck.empty
    trades := fun i =>
      if i = 1 then some { userA := "john", userB := "doe", aCardID := 1, bCardID := 2 }
      else none
    nextTradeID := 1 }

end Decks

/-- C1: accepting a pending proposal between users A and B whose two cards
are present, with payload user equal to B, performs exactly the four
mutations in source order (remove a from A, remove b from B, add B card b
to A, add A card a to B), removes the proposal, and responds with
user_a_received equal to the card of B and user_b_received equal to the
card of A; a proposal that is never accepted leaves decks unchanged, as
handleTrade never touches the deck store. -/
theorem tradeAccept_four_mutation_swap
    (node : Decks.Node) (tid : Int) (tr : Decks.TradeRequest)
    (aCard bCard : Decks.Card)
    (htr : node.trades tid = some tr)
    (ha : node.decks tr.userA tr.aCardID = some aCard)
    (hb : node.decks tr.userB tr.bCardID = some bCard) :
    Decks.handleTradeAccept node tid tr.userB
      = ({ decks :=
             Decks.DeckStore.Add
               (Decks.DeckStore.Add
                 (Decks.DeckStore.Remove
                   (Decks.DeckStore.Remove node.decks tr.userA tr.aCardID)
                   tr.userB tr.bCardID)
                 tr.userA bCard)
               tr.userB aCard
           trades := fun i => if i = tid then none else node.trades i
           nextTradeID := node.nextTradeID },
         Decks.AcceptResult.ok bCard aCard)
    ∧ (∀ (node2 : Decks.Node) (t : Decks.TradeRequest),
        (Decks.handleTrade node2 t).1.decks = node2.decks) := by
  constructor
  · simp [Decks.handleTradeAccept, htr, Decks.DeckStore.find, ha, hb]
  · intro node2 t
    unfold Decks.handleTrade
    split <;> rfl

/-- Witness for C1 at a concrete two-user state: john owns card 1, doe
owns card 2, trade 1 is pending, and doe accepts. -/
theorem tradeAccept_four_mutation_swap_witness :
    (Decks.tradeNode.trades 1
        = some { userA := "john", userB := "doe", aCardID := 1, bCardID := 2 })
    ∧ (Decks.handleTradeAccept Decks.tradeNode 1 "doe").2
        = Decks.AcceptResult.ok { id := 2, name := "B" } { id := 1, name := "A" } := by
  refine ⟨by decide, ?_⟩
  have h := tradeAccept_four_mutation_swap Decks.tradeNode 1
    { userA := "john", userB := "doe", aCardID := 1, bCardID := 2 }
    { id := 1, name := "A" } { id := 2, name := "B" }
    (by decide) (by decide) (by decide)
  exact congrArg Prod.snd h.1

/-- C4 counterexample: an accept attempt naming pending trade 1 by a user
other than the counterparty fails with forbidden and the trade id does
NOT disappear from the pending-trades map, contradicting the claim that
every pending id disappears on the first accept attempt naming it whether
it succeeds or fails. -/
theorem tradeAccept_forbidden_keeps_pending :
    (Decks.handleTradeAccept Decks.tradeNode 1 "john").2
        = Decks.AcceptResult.forbidden
    ∧ (Decks.handleTradeAccept Decks.tradeNode 1 "john").1.trades 1
        = some { userA := "john", userB := "doe", aCardID := 1, bCardID := 2 } := by
  constructor <;> decide

/-- C4 (amended): every POST /trade in a leader lifetime allocates a
strictly larger trade id than any previously issued one (so each id is
issued exactly once), and a pending trade id disappears from the
pending-trades map on the first accept attempt by the counterparty,
whether the card check then succeeds or fails; an accept attempt by any
other user is rejected with forbidden and leaves the proposal pending. -/
theorem trade_id_lifecycle (node : Decks.Node) (ts : List Decks.TradeRequest)
    (tid : Int) (tr : Decks.TradeRequest) (u : String)
    (htr : node.trades tid = some tr) :
    (Decks.processTrades node ts).2.Pairwise (· < ·)
    ∧ (∀ id2 ∈ (Decks.processTrades node ts).2, node.nextTradeID < id2)
    ∧ ((Decks.handleTradeAccept node tid tr.userB).1.trades tid = none)
    ∧ (u ≠ tr.userB →
        Decks.handleTradeAccept node tid u = (node, Decks.AcceptResult.forbidden)) := by
  obtain ⟨-, h2, h3⟩ := Decks.processTrades_spec ts node
  refine ⟨h3, fun id2 hid2 => (h2 id2 hid2).1, ?_, ?_⟩
  · simp only [Decks.handleTradeAccept, htr]
    rw [if_neg (by simp)]
    split <;> simp
  · intro hne
    simp [Decks.handleTradeAccept, htr, hne]

/-- Witness for C4 (amended) at the concrete two-user state. -/
theorem trade_id_lifecycle_witness :
    (Decks.tradeNode.trades 1
        = some { userA := "john", userB := "doe", aCardID := 1, bCardID := 2 })
    ∧ ((Decks.processTrades Decks.tradeNode
          [{ userA := "x", userB := "y", aCardID := 3, bCardID := 4 }]).2.Pairwise (· < ·)
       ∧ (∀ id2 ∈ (Decks.processTrades Decks.tradeNode
            [{ userA := "x", userB := "y", aCardID := 3, bCardID := 4 }]).2,
            Decks.tradeNode.nextTradeID < id2)
       ∧ ((Decks.handleTradeAccept Decks.tradeNode 1
            ({ userA := "john", userB := "doe", aCardID := 1, bCardID := 2 }
              : Decks.TradeRequest).userB).1.trades 1 = none)
       ∧ ("nobody" ≠ ({ userA := "john", userB := "doe", aCardID := 1, bCardID := 2 }
              : Decks.TradeRequest).userB →
           Decks.handleTradeAccept Decks.tradeNode 1 "nobody"
             = (Decks.tradeNode, Decks.AcceptResult.forbidden))) :=
  ⟨by decide,
   trade_id_lifecycle Decks.tradeNode
     [{ userA := "x", userB := "y", aCardID := 3, bCardID := 4 }] 1
     { userA := "john", userB := "doe", aCardID := 1, bCardID := 2 } "nobody"
     (by decide)⟩

/-- C5: building a fresh DeckStore from a snapshot payload, as produced by
handleSnapshot and ingested by SyncFromLeader, yields the same cards in
the global deck, the same cards in every user deck, the same pending
trades and the same next trade id as the original state. -/
theorem snapshot_roundtrip (node : Decks.Node) (s : Decks.Snapshot)
    (hwf : Decks.DeckStore.WF node.decks) (hs : Decks.snapshotOf node s) :
    (∀ u i, (Decks.SyncFromLeader s).decks u i = node.decks u i)
    ∧ (∀ i, (Decks.SyncFromLeader s).trades i = node.trades i)
    ∧ (Decks.SyncFromLeader s).nextTradeID = node.nextTradeID := by
  obtain ⟨hg, hu, hund, habs, htr1, htr2, htrnd, hnext⟩ := hs
  refine ⟨?_, ?_, hnext⟩
  · intro u i
    simp only [Decks.SyncFromLeader]
    by_cases hu0 : u = ""
    · subst hu0
      rw [Decks.usersFold_other _ _ "" (fun p hp => (hu p hp).1)]
      exact Decks.addFold_eval s.global _ "" (node.decks "") (hwf "") hg
        (fun j => rfl) i
    · by_cases hex : ∃ l, (u, l) ∈ s.users
      · obtain ⟨l, hl⟩ := hex
        refine Decks.usersFold_mem s.users _ u l (node.decks u) hl hund
          (hwf u) ((hu (u, l) hl).2) ?_ i
        intro j
        rw [Decks.addFold_other s.global _ "" u hu0 j]
        rfl
      · push_neg at hex
        have habs2 : ∀ p ∈ s.users, p.1 ≠ u := by
          intro p hp hpu
          exact hex p.2 (by rw [← hpu]; exact hp)
        rw [Decks.usersFold_other s.users _ u habs2,
          Decks.addFold_other s.global _ "" u hu0 i,
          habs u hu0 habs2 i]
        rfl
  · intro i
    simp only [Decks.SyncFromLeader]
    cases ht : node.trades i with
    | some t =>
      exact Decks.tradesFold_mem s.trades _ i t htrnd (htr2 i t ht)
    | none =>
      rw [Decks.tradesFold_absent s.trades _ i ?_]
      intro p hp hpi
      have := htr1 p hp
      rw [hpi, ht] at this
      exact Option.noConfusion this

/-- Witness for C5: a state with one global card, one user card and one
pending trade round-trips through its snapshot. -/
theorem snapshot_roundtrip_witness :
    (Decks.SyncFromLeader Decks.snapshotS).trades 7
      = some { userA := "a", userB := "b", aCardID := 1, bCardID := 2 }
    ∧ (Decks.SyncFromLeader Decks.snapshotS).decks "alice" 2
      = some { id := 2, name := "King" } := by
  have hda : Decks.snapshotNode.decks "alice"
      = Decks.Deck.add Decks.Deck.empty { id := 2, name := "King" } := rfl
  have hdg : Decks.snapshotNode.decks ""
      = Decks.Deck.add Decks.Deck.empty { id := 1, name := "Ace" } := rfl
  have hwf : Decks.DeckStore.WF Decks.snapshotNode.decks := by
    intro u
    by_cases h1 : u = "alice"
    · rw [h1, hda]
      exact Decks.WF_add_empty _
    · by_cases h2 : u = ""
      · rw [h2, hdg]
        exact Decks.WF_add_empty _
      · have hde : Decks.snapshotNode.decks u = Decks.Deck.empty := by
          simp only [Decks.snapshotNode]
          rw [if_neg h1, if_neg h2]
        rw [hde]
        exact Decks.WF_empty
  have hsnap : Decks.snapshotOf Decks.snapshotNode Decks.snapshotS := by
    refine ⟨?_, ?_, by simp [Decks.snapshotS], ?_, by decide, ?_, by simp [Decks.snapshotS], by decide⟩
    · rw [hdg]
      exact Decks.enumerates_single _
    · intro p hp
      simp only [Decks.snapshotS, List.mem_singleton] at hp
      subst hp
      constructor
      · decide
      · show Decks.Deck.enumerates (Decks.snapshotNode.decks "alice")
          [{ id := 2, name := "King" }]
        rw [hda]
        exact Decks.enumerates_single _
    · intro u hu0 hnl i
      have h1 : u ≠ "alice" := by
        intro hh
        exact hnl ("alice", [{ id := 2, name := "King" }]) (by simp [Decks.snapshotS]) hh.symm
      simp only [Decks.snapshotNode]
      rw [if_neg h1, if_neg hu0]
      rfl
    · intro i t h
      by_cases hi : i = 7
      · subst hi
        have h2 : some ({ userA := "a", userB := "b", aCardID := 1, bCardID := 2 }
            : Decks.TradeRequest) = some t :=
          (show Decks.snapshotNode.trades 7 = some _ from rfl).symm.trans h
        cases h2
        simp [Decks.snapshotS]
      · have hn : Decks.snapshotNode.trades i = none := by
          simp only [Decks.snapshotNode]
          rw [if_neg hi]
        rw [hn] at h
        exact Option.noConfusion h
  have h := snapshot_roundtrip Decks.snapshotNode Decks.snapshotS hwf hsnap
  exact ⟨(h.2.1 7).trans (by decide), ((h.1 "alice" 2)).trans (by decide)⟩

/-- C8 counterexample: when the global deck already holds card 1 named
Ace, POST /cards with card 1 named King followed by DELETE /cards/1
leaves an empty global deck listing instead of the original listing that
contained Ace: the overwrite-then-delete loses the original card, so the
add-then-remove law fails whenever the posted id already exists. -/
theorem post_then_delete_cex :
    Decks.Deck.enumerates (Decks.snapshotNode.decks "") [{ id := 1, name := "Ace" }]
    ∧ Decks.Deck.enumerates
        ((Decks.handleDeleteCard
            (Decks.handlePostCard Decks.snapshotNode ["cards"] "" ""
              { id := 1, name := "King" })
            ["cards", "1"] "" "" 1).decks "") []
    ∧ ({ id := 1, name := "Ace" } : Decks.Card) ∈ [({ id := 1, name := "Ace" } : Decks.Card)]
    ∧ ({ id := 1, name := "Ace" } : Decks.Card) ∉ ([] : List Decks.Card) := by
  have hdg : Decks.snapshotNode.decks ""
      = Decks.Deck.add Decks.Deck.empty { id := 1, name := "Ace" } := rfl
  refine ⟨by rw [hdg]; exact Decks.enumerates_single _, ⟨?_, by simp⟩, by simp, by simp⟩
  intro c
  simp only [List.not_mem_nil, false_iff]
  have hu1 : Decks.getUserFromRequest ["cards"] "" "" = "" := rfl
  have hu2 : Decks.getUserFromRequest ["cards", "1"] "" "" = "" := rfl
  simp only [Decks.handleDeleteCard, Decks.handlePostCard, hu1, hu2,
    Decks.DeckStore.Remove, Decks.DeckStore.Add, if_true]
  rw [hdg]
  simp only [Decks.Deck.remove, Decks.Deck.add, Decks.Deck.empty]
  by_cases hi : c.id = 1
  · simp [hi]
  · simp [hi]

/-- C8 (amended): POST /cards of a card whose id is not already present
in the global deck, followed by DELETE /cards/{id} for that id, leaves
every deck of the store pointwise unchanged, hence the global deck
listing is the same set of cards as before the POST; when the id was
already present the law fails (see the counterexample) because the add
overwrites and the delete then removes the overwritten entry. -/
theorem post_then_delete_noop (node : Decks.Node) (c : Decks.Card)
    (idStr : String) (hnone : node.decks "" c.id = none) :
    ∀ u i, (Decks.handleDeleteCard
        (Decks.handlePostCard node ["cards"] "" "" c)
        ["cards", idStr] "" "" c.id).decks u i = node.decks u i := by
  have hu1 : Decks.getUserFromRequest ["cards"] "" "" = "" := rfl
  have hu2 : Decks.getUserFromRequest ["cards", idStr] "" "" = "" := rfl
  intro u i
  simp only [Decks.handleDeleteCard, Decks.handlePostCard, hu1, hu2,
    Decks.DeckStore.Remove, Decks.DeckStore.Add]
  by_cases hu : u = ""
  · subst hu
    simp only [if_true]
    simp only [Decks.Deck.remove, Decks.Deck.add]
    by_cases hi : i = c.id
    · rw [if_pos hi, hi, hnone]
    · rw [if_neg hi, if_neg hi]
  · rw [if_neg hu, if_neg hu]

/-- Witness for C8 (amended): adding then deleting card 5 on a store with
an empty global deck changes nothing. -/
theorem post_then_delete_noop_witness :
    Decks.tradeNode.decks "" 5 = none
    ∧ (Decks.handleDeleteCard
        (Decks.handlePostCard Decks.tradeNode ["cards"] "" "" { id := 5, name := "Z" })
        ["cards", "5"] "" "" 5).decks "john" 1 = Decks.tradeNode.decks "john" 1 :=
  ⟨by decide,
   post_then_delete_noop Decks.tradeNode { id := 5, name := "Z" } "5" (by decide) "john" 1⟩

/-- C9: for every request whose path does not begin with /users, the
target deck is resolved by fallback, a non-empty user query parameter
first (trimmed), otherwise the trimmed X-User header, and only otherwise
the global deck; hence POST /cards with query user bob adds to the deck
of bob and leaves the global deck unchanged, and DELETE /cards/9 with
query user bob likewise only touches the deck of bob. -/
theorem getUser_fallback (parts : List String) (q h : String)
    (node : Decks.Node) (c : Decks.Card)
    (hp : ¬(2 ≤ parts.length ∧ parts.headI = "users")) :
    Decks.getUserFromRequest parts q h
      = (if q ≠ "" then Decks.trimSpace q else Decks.trimSpace h)
    ∧ Decks.getUserFromRequest ["cards"] "bob" h = "bob"
    ∧ (Decks.handlePostCard node ["cards"] "bob" "" c).decks "bob" c.id = some c
    ∧ (∀ i, (Decks.handlePostCard node ["cards"] "bob" "" c).decks "" i
        = node.decks "" i)
    ∧ (∀ i j, (Decks.handleDeleteCard node ["cards", "9"] "bob" "" j).decks "" i
        = node.decks "" i) := by
  have hu : Decks.getUserFromRequest ["cards"] "bob" "" = "bob" := rfl
  have hu9 : Decks.getUserFromRequest ["cards", "9"] "bob" "" = "bob" := rfl
  refine ⟨?_, ?_, ?_, ?_, ?_⟩
  · simp only [Decks.getUserFromRequest]
    rw [if_neg hp]
  · show Decks.getUserFromRequest ["cards"] "bob" h = "bob"
    simp only [Decks.getUserFromRequest]
    rw [if_neg (by decide), if_pos (by decide)]
    decide
  · simp only [Decks.handlePostCard, hu, Decks.DeckStore.Add, if_true]
    simp [Decks.Deck.add]
  · intro i
    simp only [Decks.handlePostCard, hu, Decks.DeckStore.Add]
    rw [if_neg (by decide : ¬("" = "bob"))]
  · intro i j
    simp only [Decks.handleDeleteCard, hu9, Decks.DeckStore.Remove]
    rw [if_neg (by decide : ¬("" = "bob"))]

/-- Witness for C9 at an empty path with both query and header set. -/
theorem getUser_fallback_witness :
    (¬(2 ≤ ([] : List String).length ∧ ([] : List String).headI = "users"))
    ∧ (Decks.getUserFromRequest [] "x" "y"
         = (if "x" ≠ "" then Decks.trimSpace "x" else Decks.trimSpace "y")
       ∧ Decks.getUserFromRequest ["cards"] "bob" "y" = "bob"
       ∧ (Decks.handlePostCard Decks.tradeNode ["cards"] "bob" ""
            { id := 6, name := "W" }).decks "bob"
            ({ id := 6, name := "W" } : Decks.Card).id
          = some { id := 6, name := "W" }
       ∧ (∀ i, (Decks.handlePostCard Decks.tradeNode ["cards"] "bob" ""
            { id := 6, name := "W" }).decks "" i = Decks.tradeNode.decks "" i)
       ∧ (∀ i j, (Decks.handleDeleteCard Decks.tradeNode ["cards", "9"] "bob" "" j).decks "" i
          = Decks.tradeNode.decks "" i)) :=
  ⟨by decide,
   getUser_fallback [] "x" "y" Decks.tradeNode { id := 6, name := "W" } (by decide)⟩

/-- C3 counterexample: with self id -5 and a live peer of id -1, every
probe succeeds and the numerically largest live id is -1, yet electLeader
caches (-5, self): the -1 fallback sentinel of the Go loop collides with
a genuine peer id -1, so the node does not adopt the live peer with the
largest id. -/
theorem electLeader_sentinel_cex :
    Decks.electLeader (-5) "self" [((-1 : Int), "peer")] (fun _ => true)
      = (-5, "self")
    ∧ Decks.isAvailable (-5) (fun _ => true) (-1) = true
    ∧ ((-5 : Int) < -1) := by
  decide

/-- C3 (amended): provided the node id is non-negative (so that the -1
sentinel of the scan cannot collide with a live id), electLeader caches
exactly the id and advertised address of the live participant with the
numerically largest id, where the node itself always counts as live: the
result is self or a live peer table entry, its id is at least the self
id, and no live peer has a larger id; the fall-back-to-self case cannot
occur since self is always live. -/
theorem electLeader_bully (selfID : Int) (selfAddr : String)
    (peers : List (Int × String)) (live : Int → Bool)
    (hpos : 0 ≤ selfID) :
    ((Decks.electLeader selfID selfAddr peers live) = (selfID, selfAddr)
      ∨ ((Decks.electLeader selfID selfAddr peers live) ∈ peers
         ∧ Decks.isAvailable selfID live
             (Decks.electLeader selfID selfAddr peers live).1 = true))
    ∧ selfID ≤ (Decks.electLeader selfID selfAddr peers live).1
    ∧ (∀ p ∈ peers, Decks.isAvailable selfID live p.1 = true →
        p.1 ≤ (Decks.electLeader selfID selfAddr peers live).1) := by
  have hself : Decks.isAvailable selfID live selfID = true := by
    simp [Decks.isAvailable]
  obtain ⟨h1, h2, h3⟩ := Decks.electFold_spec selfID live peers (selfID, selfAddr)
  have hinit : (if Decks.isAvailable selfID live selfID = true
      then (selfID, selfAddr) else ((-1 : Int), "")) = (selfID, selfAddr) :=
    if_pos hself
  have hne : (peers.foldl
      (fun best p =>
        if Decks.isAvailable selfID live p.1 = false then best
        else if p.1 > best.1 then p else best) (selfID, selfAddr)).1 ≠ -1 := by
    intro hcon
    rw [hcon] at h1
    omega
  have hel : Decks.electLeader selfID selfAddr peers live
      = peers.foldl
        (fun best p =>
          if Decks.isAvailable selfID live p.1 = false then best
          else if p.1 > best.1 then p else best) (selfID, selfAddr) := by
    simp only [Decks.electLeader, hinit]
    rw [if_neg hne]
  rw [hel]
  exact ⟨h2, h1, h3⟩

/-- Witness for C3 (amended): node 2 with live peers 3 and 1 elects
peer 3. -/
theorem electLeader_bully_witness :
    ((0 : Int) ≤ 2)
    ∧ (((Decks.electLeader 2 "s" [(3, "p3"), (1, "p1")] (fun _ => true))
          = ((2 : Int), "s")
        ∨ ((Decks.electLeader 2 "s" [(3, "p3"), (1, "p1")] (fun _ => true))
             ∈ [((3 : Int), "p3"), ((1 : Int), "p1")]
           ∧ Decks.isAvailable 2 (fun _ => true)
               (Decks.electLeader 2 "s" [(3, "p3"), (1, "p1")] (fun _ => true)).1 = true))
       ∧ (2 : Int) ≤ (Decks.electLeader 2 "s" [(3, "p3"), (1, "p1")] (fun _ => true)).1
       ∧ (∀ p ∈ [((3 : Int), "p3"), ((1 : Int), "p1")],
           Decks.isAvailable 2 (fun _ => true) p.1 = true →
           p.1 ≤ (Decks.electLeader 2 "s" [(3, "p3"), (1, "p1")] (fun _ => true)).1)) :=
  ⟨by decide,
   electLeader_bully 2 "s" [(3, "p3"), (1, "p1")] (fun _ => true) (by decide)⟩

/-- C2 counterexample: find-waiter pairing performs no identity checks,
so a self-match of player p against player p is producible; there the
winner field equals the host player id even though the host power sum (0)
is not strictly greater than the guest power sum (1), refuting the
exactly-when reading of the winner condition. -/
theorem createMatch_winner_cex :
    (MatchSvc.FindWaiter
        { address := "A", waiting := [{ playerID := "p", cards := [] }], peers := [] }
        { playerID := "p", cards := [{ id := "c", name := "n", power := 1 }],
          callback := "cb", server := "B" }
        "m1").2
      = MatchSvc.FindWaiterResult.ok
          { id := "m1"
            host := { playerID := "p", server := "A", cards := [] }
            guest := { playerID := "p", server := "A",
                       cards := [{ id := "c", name := "n", power := 1 }] }
            winner := "p" }
    ∧ ¬(MatchSvc.scoreOf [{ id := "c", name := "n", power := 1 }]
        < MatchSvc.scoreOf ([] : List MatchSvc.Card)) := by
  decide

/-- C2 (amended): for every match produced by createMatch (hence by local
pairing, find-waiter and claim pairing), provided the two player ids are
distinct and neither is the literal draw string, the winner field is the
host id, the guest id or draw, and it equals the host id exactly when the
host power sum is strictly greater, the guest id exactly when the guest
power sum is strictly greater, and draw exactly when the sums are equal;
without the distinctness proviso the biconditionals fail on id
collisions. -/
theorem createMatch_winner (host guest : MatchSvc.WaitingPlayer)
    (localAddr matchID : String)
    (hhg : host.playerID ≠ guest.playerID)
    (hhd : host.playerID ≠ "draw") (hgd : guest.playerID ≠ "draw") :
    ((MatchSvc.createMatch host guest localAddr matchID).winner = host.playerID
      ∨ (MatchSvc.createMatch host guest localAddr matchID).winner = guest.playerID
      ∨ (MatchSvc.createMatch host guest localAddr matchID).winner = "draw")
    ∧ ((MatchSvc.createMatch host guest localAddr matchID).winner = host.playerID
        ↔ MatchSvc.scoreOf guest.cards < MatchSvc.scoreOf host.cards)
    ∧ ((MatchSvc.createMatch host guest localAddr matchID).winner = guest.playerID
        ↔ MatchSvc.scoreOf host.cards < MatchSvc.scoreOf guest.cards)
    ∧ ((MatchSvc.createMatch host guest localAddr matchID).winner = "draw"
        ↔ MatchSvc.scoreOf host.cards = MatchSvc.scoreOf guest.cards) := by
  rcases lt_trichotomy (MatchSvc.scoreOf host.cards) (MatchSvc.scoreOf guest.cards)
    with hlt | heq | hgt
  · have hw : (MatchSvc.createMatch host guest localAddr matchID).winner
        = guest.playerID := by
      simp only [MatchSvc.createMatch]
      rw [if_neg (by omega), if_pos (by omega)]
    rw [hw]
    refine ⟨Or.inr (Or.inl rfl), ?_, ?_, ?_⟩
    · constructor
      · intro hh; exact absurd hh.symm hhg
      · intro hh; omega
    · constructor
      · intro _; exact hlt
      · intro _; rfl
    · constructor
      · intro hh; exact absurd hh hgd
      · intro hh; omega
  · have hw : (MatchSvc.createMatch host guest localAddr matchID).winner
        = "draw" := by
      simp only [MatchSvc.createMatch]
      rw [if_neg (by omega), if_neg (by omega)]
    rw [hw]
    refine ⟨Or.inr (Or.inr rfl), ?_, ?_, ?_⟩
    · constructor
      · intro hh; exact absurd hh.symm hhd
      · intro hh; omega
    · constructor
      · intro hh; exact absurd hh.symm hgd
      · intro hh; omega
    · constructor
      · intro _; exact heq
      · intro _; rfl
  · have hw : (MatchSvc.createMatch host guest localAddr matchID).winner
        = host.playerID := by
      simp only [MatchSvc.createMatch]
      rw [if_pos (by omega)]
    rw [hw]
    refine ⟨Or.inl rfl, ?_, ?_, ?_⟩
    · constructor
      · intro _; exact hgt
      · intro _; rfl
    · constructor
      · intro hh; exact absurd hh hhg
      · intro hh; omega
    · constructor
      · intro hh; exact absurd hh hhd
      · intro hh; omega

/-- Witness for C2 (amended): players h (power 3) and g (power 1) give
winner h. -/
theorem createMatch_winner_witness :
    (("h" : String) ≠ "g" ∧ ("h" : String) ≠ "draw" ∧ ("g" : String) ≠ "draw")
    ∧ (((MatchSvc.createMatch
          { playerID := "h", cards := [{ id := "a", name := "x", power := 3 }] }
          { playerID := "g", cards := [{ id := "b", name := "y", power := 1 }] }
          "srv" "m2").winner = "h"
        ∨ (MatchSvc.createMatch
            { playerID := "h", cards := [{ id := "a", name := "x", power := 3 }] }
            { playerID := "g", cards := [{ id := "b", name := "y", power := 1 }] }
            "srv" "m2").winner = "g"
        ∨ (MatchSvc.createMatch
            { playerID := "h", cards := [{ id := "a", name := "x", power := 3 }] }
            { playerID := "g", cards := [{ id := "b", name := "y", power := 1 }] }
            "srv" "m2").winner = "draw")) :=
  ⟨by decide,
   (createMatch_winner
      { playerID := "h", cards := [{ id := "a", name := "x", power := 3 }] }
      { playerID := "g", cards := [{ id := "b", name := "y", power := 1 }] }
      "srv" "m2" (by decide) (by decide) (by decide)).1⟩

/-- C7 (code bug exhibit): a find-waiter request arriving at node A:8081
from a challenger whose server field is B:8082 produces the match pairing
the popped waiter as host against the challenger as guest, but the
challenger PlayerInfo records the local address A:8081 of the waiter
node, not the challenger server B:8082 carried by the request: the
decoded server field is never used, so the callback half of the match is
not locatable as the spec intends. -/
theorem findWaiter_records_local_server :
    (MatchSvc.FindWaiter
        { address := "A:8081", waiting := [{ playerID := "w1", cards := [] }], peers := [] }
        { playerID := "bob", cards := [],
          callback := "http://B:8082/start-remote-match", server := "B:8082" }
        "m1")
      = ({ address := "A:8081", waiting := [], peers := [] },
         MatchSvc.FindWaiterResult.ok
           { id := "m1"
             host := { playerID := "w1", server := "A:8081", cards := [] }
             guest := { playerID := "bob", server := "A:8081", cards := [] }
             winner := "draw" })
    ∧ ("A:8081" : String) ≠ "B:8082" := by
  decide

/-- C10: the find-waiter handler validates nothing beyond JSON decoding:
for every decodable request body, whenever the waiting queue is non-empty
the head waiter is dequeued and a match pairing it against the challenger
is created and returned with HTTP 200, including when the challenger card
list does not have five cards, the challenger id is empty, or the
challenger id equals the waiter id. -/
theorem findWaiter_no_validation (server : MatchSvc.Server)
    (w : MatchSvc.WaitingPlayer) (rest : List MatchSvc.WaitingPlayer)
    (data : MatchSvc.FindWaiterRequest) (matchID : String)
    (hq : server.waiting = w :: rest) :
    MatchSvc.FindWaiter server data matchID
      = ({ server with waiting := rest },
         MatchSvc.FindWaiterResult.ok
           (MatchSvc.createMatch w
              { playerID := data.playerID, cards := data.cards }
              server.address matchID)) := by
  simp [MatchSvc.FindWaiter, MatchSvc.popWaiter, hq]

/-- Witness for C10: a queue head with empty id is paired against a
challenger with the same empty id and a three-card hand. -/
theorem findWaiter_no_validation_witness :
    (({ address := "A", waiting := [{ playerID := "", cards := [] }], peers := [] }
        : MatchSvc.Server).waiting
      = { playerID := "", cards := ([] : List MatchSvc.Card) } :: [])
    ∧ MatchSvc.FindWaiter
        { address := "A", waiting := [{ playerID := "", cards := [] }], peers := [] }
        { playerID := "", cards := [{ id := "1", name := "c1", power := 1 },
            { id := "2", name := "c2", power := 1 },
            { id := "3", name := "c3", power := 1 }],
          callback := "cb", server := "B" }
        "m3"
      = ({ address := "A", waiting := [], peers := [] },
         MatchSvc.FindWaiterResult.ok
           (MatchSvc.createMatch { playerID := "", cards := [] }
              { playerID := "", cards := [{ id := "1", name := "c1", power := 1 },
                  { id := "2", name := "c2", power := 1 },
                  { id := "3", name := "c3", power := 1 }] }
              "A" "m3")) :=
  ⟨by decide,
   findWaiter_no_validation
     { address := "A", waiting := [{ playerID := "", cards := [] }], peers := [] }
     { playerID := "", cards := [] } []
     { playerID := "", cards := [{ id := "1", name := "c1", power := 1 },
         { id := "2", name := "c2", power := 1 },
         { id := "3", name := "c3", power := 1 }],
       callback := "cb", server := "B" }
     "m3" (by decide)⟩

/-- C6 counterexample: the polling loop of playMatch returns a match for
a 500 response whose body decodes as a Match, although 500 is not 2xx,
and it skips an undecodable 200 body without logging; both contradict the
claim that a match is returned only on 2xx and that every other outcome
is logged. -/
theorem pollStep_cex :
    MatchSvc.pollStep (MatchSvc.PeerResponse.httpResponse 500
        (some { id := "m", host := { playerID := "h", server := "s", cards := [] },
                guest := { playerID := "g", server := "s", cards := [] },
                winner := "draw" }))
      = MatchSvc.StepOutcome.returnMatch
          { id := "m", host := { playerID := "h", server := "s", cards := [] },
            guest := { playerID := "g", server := "s", cards := [] },
            winner := "draw" }
    ∧ ¬((200 : Int) ≤ 500 ∧ (500 : Int) ≤ 299)
    ∧ MatchSvc.pollStep (MatchSvc.PeerResponse.httpResponse 200 none)
      = MatchSvc.StepOutcome.continueNoLog := by
  decide

/-- C6 (amended): during peer polling a peer interaction produces a
returned Match exactly when it is not a transport error, its status is
not 204, and its body decodes as a Match, regardless of the status class;
any outcome that does not return a match makes polling continue with the
next peer; a transport error is logged before continuing; an undecodable
body and a 204 are skipped without a log line. -/
theorem pollStep_spec (r : MatchSvc.PeerResponse)
    (rest : List MatchSvc.PeerResponse) :
    (∀ m, MatchSvc.pollStep r = MatchSvc.StepOutcome.returnMatch m ↔
        (∃ s, r = MatchSvc.PeerResponse.httpResponse s (some m) ∧ s ≠ 204))
    ∧ ((∀ m, MatchSvc.pollStep r ≠ MatchSvc.StepOutcome.returnMatch m) →
        MatchSvc.pollPeers (r :: rest) = MatchSvc.pollPeers rest)
    ∧ MatchSvc.pollStep MatchSvc.PeerResponse.transportError
        = MatchSvc.StepOutcome.continueLogged
    ∧ (∀ s b, s = (204 : Int) →
        MatchSvc.pollStep (MatchSvc.PeerResponse.httpResponse s b)
          = MatchSvc.StepOutcome.continueNoLog)
    ∧ (∀ s, MatchSvc.pollStep (MatchSvc.PeerResponse.httpResponse s none)
        = MatchSvc.StepOutcome.continueNoLog) := by
  refine ⟨?_, ?_, rfl, ?_, ?_⟩
  · intro m
    cases r with
    | transportError => simp [MatchSvc.pollStep]
    | httpResponse s b =>
      by_cases hs : s = 204
      · subst hs
        simp [MatchSvc.pollStep]
      · cases b with
        | none => simp [MatchSvc.pollStep, hs]
        | some m2 =>
          simp only [MatchSvc.pollStep, if_neg hs]
          constructor
          · intro hh
            injection hh with hh2
            exact ⟨s, by rw [hh2], hs⟩
          · rintro ⟨s2, hh, -⟩
            injection hh with hh1 hh2
            injection hh2 with hh3
            rw [hh3]
  · intro hnr
    cases hstep : MatchSvc.pollStep r with
    | returnMatch m => exact absurd hstep (hnr m)
    | continueLogged => simp [MatchSvc.pollPeers, hstep]
    | continueNoLog => simp [MatchSvc.pollPeers, hstep]
  · intro s b hs
    subst hs
    simp [MatchSvc.pollStep]
  · intro s
    by_cases hs : s = 204 <;> simp [MatchSvc.pollStep, hs]

/-- Witness for C6 (amended): a transport error continues polling with
the next peer. -/
theorem pollStep_spec_witness :
    MatchSvc.pollPeers [MatchSvc.PeerResponse.transportError]
      = MatchSvc.pollPeers [] :=
  (pollStep_spec MatchSvc.PeerResponse.transportError []).2.1
    (fun m hh => by simp [MatchSvc.pollStep] at hh)

end WorldCup
